import Mathlib

/-!
Shallow embedding of `esm_analysis/carbon.py`.

A Field is the list of values of one variable along the time axis at a
single grid cell (every operation of the source acts pointwise over the
spatial axes, so a single grid cell captures the time behaviour).  A
Dataset is a named list of Fields sharing the time axis, mirroring an
xarray Dataset.  Machine floats are modelled by rationals; `np.exp` and
`np.log` are passed as explicit function parameters where they occur,
since the claims under study never depend on their values.  The
statistics helpers `linear_regression`, `nanmean` and `rm_poly` live in
`esm_analysis/stats.py`, which is not among the sources here; the first
two are modelled from the specification (see their doc comments) and
`rm_poly` is kept as an abstract function parameter.
-/

namespace Carbon

abbrev Field := List ℚ

/-- Mean of a series, as `np.mean` over the time axis (the sources never
take the mean of an empty series; on `[]` this returns `0`). -/
def mean (f : Field) : ℚ := f.sum / (f.length : ℚ)

/-- An xarray Dataset: named variables over a shared time axis. -/
structure Dataset where
  vars : List (String × Field)
deriving DecidableEq

/-- The variable names, as `ds.data_vars`. -/
def Dataset.data_vars (ds : Dataset) : List String := ds.vars.map Prod.fst

/-- Variable lookup, as `ds[name]` (first binding with that name). -/
def Dataset.get (ds : Dataset) (n : String) : Option Field :=
  (ds.vars.find? (fun p => p.1 == n)).map Prod.snd

/-- Variable lookup after a successful presence check. -/
def Dataset.getV (ds : Dataset) (n : String) : Field := (ds.get n).getD []

/-- A Dataset of per-variable scalars, such as `ds.mean(time)`. -/
abbrev Terms := List (String × ℚ)

/-- Scalar lookup in a `Terms` value. -/
def getT (t : Terms) (n : String) : Option ℚ :=
  (t.find? (fun p => p.1 == n)).map Prod.snd

/-- Apply a series transform to every variable of a Dataset. -/
def dsMapF (g : Field → Field) (ds : Dataset) : Dataset :=
  ⟨ds.vars.map (fun p => (p.1, g p.2))⟩

/-- Per-variable time mean, as `ds.mean(time)`. -/
def dsMeanTime (ds : Dataset) : Terms :=
  ds.vars.map (fun p => (p.1, mean p.2))

/-- Dataset minus a Dataset of scalars, broadcasting the scalar along
time; variables are matched by name as xarray aligns them. -/
def dsSubTerms (ds : Dataset) (t : Terms) : Dataset :=
  ⟨ds.vars.filterMap (fun p =>
    (getT t p.1).map (fun m => (p.1, p.2.map (fun v => v - m))))⟩

/-- Product of two Datasets of scalars; as in xarray the result holds
the variables present in both operands. -/
def termsMul (a b : Terms) : Terms :=
  a.filterMap (fun p => (getT b p.1).map (fun y => (p.1, p.2 * y)))

/-- Dataset of scalars times a Dataset, broadcasting each scalar along
time over the variable of the same name. -/
def termsMulDS (t : Terms) (ds : Dataset) : Dataset :=
  ⟨t.filterMap (fun p =>
    (ds.get p.1).map (fun f => (p.1, f.map (fun v => p.2 * v))))⟩

/-- Dataset times a single series, elementwise along time on every
variable, as `xr.Dataset(...) * pCO2`. -/
def dsMulField (ds : Dataset) (g : Field) : Dataset :=
  ⟨ds.vars.map (fun p => (p.1, List.zipWith (fun x y => x * y) p.2 g))⟩

/-! ## The closed-form functions of `carbon.py` -/

/-- The function `co2_sol(t, s)`: CO2 solubility from the time means of
SST and SSS.  The library calls `np.exp` and `np.log` are the function
parameters `e` and `lg`. -/
def co2_sol (e lg : ℚ → ℚ) (t s : List ℚ) : ℚ :=
  let a0 : ℚ := -162.8301
  let a1 : ℚ := 218.2968
  let a2 : ℚ := 90.9241
  let a3 : ℚ := -1.47696
  let b0 : ℚ := 0.025695
  let b1 : ℚ := -0.025225
  let b2 : ℚ := 0.0049867
  let tm := (mean t + 273.15) * 0.01
  let sm := mean s
  let t_sq := tm ^ 2
  let t_inv := 1 / tm
  let log_t := lg tm
  let d0 := b2 * t_sq + b1 * tm + b0
  e (a0 + a1 * t_inv + a2 * log_t + a3 * t_sq + d0 * sm)

/-- The function `schmidt(t)`: dimensionless Schmidt number from the
time mean of SST. -/
def schmidt (t : List ℚ) : ℚ :=
  let tm := mean t
  2073.1 - 125.62 * tm + 3.6276 * tm ^ 2 - 0.043219 * tm ^ 3

/-- The function `potential_pco2(t_insitu, pco2_insitu)`; the lists are
indexed by depth and index 0 is the surface, so `t_sfc` is
`t_insitu.isel(depth=0)`. -/
def potential_pco2 (t_insitu pco2_insitu : List ℚ) : List ℚ :=
  let t_sfc := t_insitu.headD 0
  List.zipWith (fun p t => p * (1 + 0.0423 * (t_sfc - t))) pco2_insitu t_insitu

/-! ## The sensitivity engine `spco2_sensitivity` -/

/-- The list `requiredVars` of `spco2_sensitivity._check_variables`. -/
def requiredVars : List String := ["spco2", "tos", "sos", "talkos", "dissicos"]

/-- The function `spco2_sensitivity(ds)`.  The `ValueError` raised by
`_check_variables` is the `error` branch and carries `missingVars`, the
required variables absent from `ds.data_vars`.  The scalar sensitivity
`0.0423` for `tos` becomes a constant series along time, which is how
the later broadcast against `pCO2` reads it. -/
def spco2_sensitivity (ds : Dataset) : Except (List String) Dataset :=
  if requiredVars.all (fun i => decide (i ∈ ds.data_vars)) then
    let DIC := ds.getV "dissicos"
    let ALK := ds.getV "talkos"
    let SALT := ds.getV "sos"
    let pCO2 := ds.getV "spco2"
    let bfALK := List.zipWith (fun a d => -a ^ 2 / ((2 * d - a) * (a - d))) ALK DIC
    let bfDIC := List.zipWith
      (fun a d => (3 * a * d - 2 * d ^ 2) / ((2 * d - a) * (a - d))) ALK DIC
    let sensitivity : Dataset := ⟨[
      ("tos", List.replicate pCO2.length (0.0423 : ℚ)),
      ("sos", SALT.map (fun s => 1 / s)),
      ("talkos", List.zipWith (fun a b => 1 / a * b) ALK bfALK),
      ("dissicos", List.zipWith (fun d b => 1 / d * b) DIC bfDIC)]⟩
    .ok (dsMulField sensitivity pCO2)
  else
    .error (requiredVars.filter (fun i => decide (i ∉ ds.data_vars)))

/-! ## Concrete datasets used by witnesses and counterexamples -/

/-- A Dataset holding exactly the five required variables over two time
points (years 2000 and 2001). -/
def dsFull : Dataset :=
  ⟨[("spco2", [10, 20]), ("tos", [1, 2]), ("sos", [2, 4]),
    ("talkos", [3, 5]), ("dissicos", [1, 2])]⟩

/-- The Dataset `dsFull` with the variable `tos` omitted. -/
def dsNoTos : Dataset :=
  ⟨[("spco2", [10, 20]), ("sos", [2, 4]),
    ("talkos", [3, 5]), ("dissicos", [1, 2])]⟩

/-- The Dataset `dsFull` with one extra variable `foo`: its variable set
is not exactly the five required ones. -/
def dsExtra : Dataset :=
  ⟨[("spco2", [10, 20]), ("tos", [1, 2]), ("sos", [2, 4]),
    ("talkos", [3, 5]), ("dissicos", [1, 2]), ("foo", [7, 9])]⟩

/-! ## Helper lemmas on zipWith -/

theorem zipWith_replicate_length (c : ℚ) (l : List ℚ) :
    List.zipWith (fun x y => x * y) (List.replicate l.length c) l =
      l.map (fun v => c * v) := by
  induction l with
  | nil => rfl
  | cons x xs ih => simp [List.replicate_succ, ih]

theorem zipWith_self_nested (k h : ℚ → ℚ → ℚ) (A : List ℚ) :
    ∀ D : List ℚ,
      List.zipWith k A (List.zipWith h A D) =
        List.zipWith (fun a d => k a (h a d)) A D := by
  induction A with
  | nil => intro D; rfl
  | cons a as ih =>
    intro D
    cases D with
    | nil => rfl
    | cons d ds => simp [ih]

theorem zipWith_self_nested_right (k h : ℚ → ℚ → ℚ) (A : List ℚ) :
    ∀ D : List ℚ,
      List.zipWith k D (List.zipWith h A D) =
        List.zipWith (fun a d => k d (h a d)) A D := by
  induction A with
  | nil => intro D; cases D <;> rfl
  | cons a as ih =>
    intro D
    cases D with
    | nil => rfl
    | cons d ds => simp [ih]

/-! ## Claims C7 and C8 -/

/-- C7: for every in-situ temperature and pCO2 field, the output of
`potential_pco2` at depth index 0 equals the original pCO2 at depth
index 0 unchanged, since the temperature difference from the surface is
zero there and the correction factor is 1. -/
theorem claim_C7 (t p : List ℚ) (ht : t ≠ []) (hp : p ≠ []) :
    (potential_pco2 t p)[0]? = p[0]? := by
  match t, p with
  | t0 :: ts, p0 :: ps =>
    simp only [potential_pco2, List.headD_cons, List.zipWith_cons_cons,
      List.getElem?_cons_zero]
    ring_nf

/-- Witness for C7 at a concrete two-level water column. -/
theorem claim_C7_witness :
    ([3, 5] : List ℚ) ≠ [] ∧ ([400, 380] : List ℚ) ≠ [] ∧
      (potential_pco2 [3, 5] [400, 380])[0]? = ([400, 380] : List ℚ)[0]? :=
  ⟨by decide, by decide, claim_C7 [3, 5] [400, 380] (by decide) (by decide)⟩

/-- C8: `co2_sol` and `schmidt` are invariant under permutation of their
input time series, because each depends on its inputs only through the
time means. -/
theorem claim_C8 (e lg : ℚ → ℚ) (t t' s s' : List ℚ)
    (ht : t.Perm t') (hs : s.Perm s') :
    co2_sol e lg t s = co2_sol e lg t' s' ∧ schmidt t = schmidt t' := by
  have hmt : mean t = mean t' := by
    unfold mean; rw [ht.sum_eq, ht.length_eq]
  have hms : mean s = mean s' := by
    unfold mean; rw [hs.sum_eq, hs.length_eq]
  constructor
  · unfold co2_sol; rw [hmt, hms]
  · unfold schmidt; rw [hmt]

/-- Witness for C8 at concrete permuted series. -/
theorem claim_C8_witness :
    co2_sol id id [1, 2, 3] [7, 8] = co2_sol id id [3, 1, 2] [8, 7] ∧
      schmidt [1, 2, 3] = schmidt [3, 1, 2] :=
  claim_C8 id id [1, 2, 3] [3, 1, 2] [7, 8] [8, 7] (by decide) (by decide)

/-! ## Facts about the variable check, shared by several claims -/

theorem sens_error_of_missing (ds : Dataset)
    (hmiss : ∃ v ∈ requiredVars, v ∉ ds.data_vars) :
    spco2_sensitivity ds =
      .error (requiredVars.filter (fun i => decide (i ∉ ds.data_vars))) := by
  have hcond : requiredVars.all (fun i => decide (i ∈ ds.data_vars)) = false := by
    rcases hmiss with ⟨v, hv, hnot⟩
    rw [List.all_eq_false]
    exact ⟨v, hv, by simpa using hnot⟩
  have hneg : ¬ (requiredVars.all (fun i => decide (i ∈ ds.data_vars)) = true) := by
    simp [hcond]
  unfold spco2_sensitivity
  rw [if_neg hneg]

theorem sens_ok_of_all (ds : Dataset)
    (hall : ∀ v ∈ requiredVars, v ∈ ds.data_vars) :
    ∃ out, spco2_sensitivity ds = .ok out := by
  have hpos : requiredVars.all (fun i => decide (i ∈ ds.data_vars)) = true := by
    rw [List.all_eq_true]
    intro v hv
    simpa using hall v hv
  unfold spco2_sensitivity
  rw [if_pos hpos]
  exact ⟨_, rfl⟩

/-! ## Claims C1 and C9 -/

/-- C1: for every Dataset missing at least one of the five required
variables, `spco2_sensitivity` fails with an error naming exactly the
missing required variables; for every Dataset containing all five, no
error is raised. -/
theorem claim_C1 (ds : Dataset) :
    ((∃ v ∈ requiredVars, v ∉ ds.data_vars) →
      spco2_sensitivity ds =
        .error (requiredVars.filter (fun i => decide (i ∉ ds.data_vars)))) ∧
    ((∀ v ∈ requiredVars, v ∈ ds.data_vars) →
      ∃ out, spco2_sensitivity ds = .ok out) :=
  ⟨sens_error_of_missing ds, sens_ok_of_all ds⟩

/-- Witness for C1: a single omission of `tos` yields the error naming
exactly `tos`; the full Dataset raises no error. -/
theorem claim_C1_witness :
    spco2_sensitivity dsNoTos = .error ["tos"] ∧
      ∃ out, spco2_sensitivity dsFull = .ok out := by
  constructor
  · have h := (claim_C1 dsNoTos).1 ⟨"tos", by decide, by decide⟩
    rw [h]
    have hf : requiredVars.filter (fun i => decide (i ∉ dsNoTos.data_vars)) = ["tos"] := by
      decide
    rw [hf]
  · exact (claim_C1 dsFull).2 (by decide)

/-- C9: for every valid input, `spco2_sensitivity` returns exactly the
four sensitivity fields, each the stated pointwise formula multiplied by
the pCO2 field: `0.0423 * pCO2` for `tos`, `(1 / S) * pCO2` for `sos`,
`(buffer_factor_ALK / ALK) * pCO2` for `talkos` and
`(buffer_factor_DIC / DIC) * pCO2` for `dissicos`. -/
theorem claim_C9 (ds out : Dataset) (h : spco2_sensitivity ds = .ok out) :
    out.data_vars = ["tos", "sos", "talkos", "dissicos"] ∧
    out.get "tos" = some ((ds.getV "spco2").map (fun p => (0.0423 : ℚ) * p)) ∧
    out.get "sos" = some (List.zipWith (fun s p => 1 / s * p)
      (ds.getV "sos") (ds.getV "spco2")) ∧
    out.get "talkos" = some (List.zipWith (fun b p => b * p)
      (List.zipWith (fun a d => (-a ^ 2 / ((2 * d - a) * (a - d))) / a)
        (ds.getV "talkos") (ds.getV "dissicos"))
      (ds.getV "spco2")) ∧
    out.get "dissicos" = some (List.zipWith (fun b p => b * p)
      (List.zipWith (fun a d => ((3 * a * d - 2 * d ^ 2) / ((2 * d - a) * (a - d))) / d)
        (ds.getV "talkos") (ds.getV "dissicos"))
      (ds.getV "spco2")) := by
  unfold spco2_sensitivity at h
  split at h
  case isFalse => cases h
  case isTrue hc =>
    simp only [Except.ok.injEq] at h
    subst h
    refine ⟨rfl, ?_, ?_, ?_, ?_⟩
    · show some (List.zipWith (fun x y => x * y)
          (List.replicate (ds.getV "spco2").length (0.0423 : ℚ))
          (ds.getV "spco2")) = _
      rw [zipWith_replicate_length]
    · show some (List.zipWith (fun x y => x * y)
          ((ds.getV "sos").map (fun s => 1 / s)) (ds.getV "spco2")) = _
      rw [List.zipWith_map_left]
    · show some (List.zipWith (fun x y => x * y)
          (List.zipWith (fun a b => 1 / a * b) (ds.getV "talkos")
            (List.zipWith (fun a d => -a ^ 2 / ((2 * d - a) * (a - d)))
              (ds.getV "talkos") (ds.getV "dissicos")))
          (ds.getV "spco2")) = _
      rw [zipWith_self_nested]
      have hfn : (fun (a d : ℚ) => 1 / a * (-a ^ 2 / ((2 * d - a) * (a - d)))) =
          (fun (a d : ℚ) => -a ^ 2 / ((2 * d - a) * (a - d)) / a) := by
        funext a d
        rw [one_div_mul_eq_div]
      rw [hfn]
    · show some (List.zipWith (fun x y => x * y)
          (List.zipWith (fun d b => 1 / d * b) (ds.getV "dissicos")
            (List.zipWith
              (fun a d => (3 * a * d - 2 * d ^ 2) / ((2 * d - a) * (a - d)))
              (ds.getV "talkos") (ds.getV "dissicos")))
          (ds.getV "spco2")) = _
      rw [zipWith_self_nested_right]
      have hfn : (fun (a d : ℚ) =>
            1 / d * ((3 * a * d - 2 * d ^ 2) / ((2 * d - a) * (a - d)))) =
          (fun (a d : ℚ) => (3 * a * d - 2 * d ^ 2) / ((2 * d - a) * (a - d)) / d) := by
        funext a d
        rw [one_div_mul_eq_div]
      rw [hfn]

/-- Witness for C9 at the concrete full Dataset. -/
theorem claim_C9_witness :
    ∃ out, spco2_sensitivity dsFull = .ok out ∧
      out.data_vars = ["tos", "sos", "talkos", "dissicos"] ∧
      out.get "tos" =
        some ((dsFull.getV "spco2").map (fun p => (0.0423 : ℚ) * p)) := by
  have h : spco2_sensitivity dsFull = .ok (dsMulField
      ⟨[("tos", List.replicate 2 (0.0423 : ℚ)),
        ("sos", ([2, 4] : List ℚ).map (fun s => 1 / s)),
        ("talkos", List.zipWith (fun a b => 1 / a * b) [3, 5]
          (List.zipWith (fun a d => -a ^ 2 / ((2 * d - a) * (a - d))) [3, 5] [1, 2])),
        ("dissicos", List.zipWith (fun d b => 1 / d * b) [1, 2]
          (List.zipWith
            (fun a d => (3 * a * d - 2 * d ^ 2) / ((2 * d - a) * (a - d)))
            [3, 5] [1, 2]))]⟩ [10, 20]) := by rfl
  exact ⟨_, h, (claim_C9 dsFull _ h).1, (claim_C9 dsFull _ h).2.1⟩

/-! ## Statistics helpers of `esm_analysis/stats.py`

The module `esm_analysis/stats.py` is not among the provided sources;
only its callers in `carbon.py` are.  `nanmean` and `linear_regression`
are therefore modelled from the specification, and `rm_poly` (whose
behaviour no claim depends on) is kept as an abstract function
parameter of the decomposition drivers. -/

/-- Modelled from the spec: `nanmean(dataset, dim=None) -> dataset/field`
of `esm_analysis/stats.py`; per the specification the decomposition
drivers use it to "subtract the plain time mean", so on one variable it
is the mean along the time axis (NaN values are not representable over
the rationals). -/
def nanmeanF : Field → ℚ := mean

/-- The helper `nanmean` applied to a whole Dataset: one scalar per
variable. -/
def nanmeanDS (ds : Dataset) : Terms :=
  ds.vars.map (fun p => (p.1, nanmeanF p.2))

/-- Modelled from the spec: `linear_regression(index, field, psig=None)
-> {slope, ...}` of `esm_analysis/stats.py`; the callers read only the
slope, modelled as the ordinary least-squares slope of the field
against the index. -/
def linear_regression (x y : Field) : ℚ :=
  let n : ℚ := x.length
  (n * (List.zipWith (fun a b => a * b) x y).sum - x.sum * y.sum) /
    (n * (List.zipWith (fun a b => a * b) x x).sum - x.sum ^ 2)

/-! ## The decomposition drivers -/

/-- The exceptions the decomposition drivers raise: the `ValueError` of
`_check_variables` with its list of missing variables, the `KeyError`
for a detrend without an order, and the `ValueError` that `xr.concat`
raises on an empty window list. -/
inductive DecompErr
  | missingVars (l : List String)
  | orderMissing
  | concatEmpty
deriving DecidableEq

/-- Truthiness test of the `order` argument: Python `not order` holds
for `None` and for `0`. -/
def orderFalsy : Option Nat → Bool
  | none => true
  | some k => k == 0

/-- Climatology of one calendar month: the mean of the entries of the
series whose month label equals `m`. -/
def monthMean (months : List Nat) (f : Field) (m : Nat) : ℚ :=
  mean ((months.zip f).filterMap (fun p => if p.1 = m then some p.2 else none))

/-- Monthly-climatology subtraction, as
`ds.groupby(time.month) - ds.groupby(time.month).mean(time)`. -/
def deseasonF (months : List Nat) (f : Field) : Field :=
  List.zipWith (fun m v => v - monthMean months f m) months f

/-- Deseasonalization of every variable of a Dataset. -/
def dsDeseason (months : List Nat) (ds : Dataset) : Dataset :=
  dsMapF (deseasonF months) ds

/-- The anomaly of the `detrend=False` branch of `spco2_decomposition`:
`ds_terms - ds_terms.mean(time)`. -/
def anomaly_no_detrend (ds : Dataset) : Dataset :=
  dsSubTerms ds (dsMeanTime ds)

/-- The anomaly of the `detrend=False` branch of
`spco2_decomposition_index`: `ds_terms - nanmean(ds_terms)`. -/
def anomaly_no_detrend_index (ds : Dataset) : Dataset :=
  dsSubTerms ds (nanmeanDS ds)

/-- The anomaly pipeline of `spco2_decomposition`: detrend via the
abstract `rm_poly` or subtract the time mean, then optionally
deseasonalize. -/
def anomalyPipeline (rmPoly : Nat → Field → Field) (ds : Dataset)
    (months : List Nat) (detrend : Bool) (order : Option Nat)
    (deseasonalize : Bool) : Dataset :=
  let a1 := if detrend then dsMapF (rmPoly (order.getD 0)) ds
    else anomaly_no_detrend ds
  if deseasonalize then dsDeseason months a1 else a1

/-- The anomaly pipeline of `spco2_decomposition_index`, whose
`detrend=False` branch subtracts `nanmean` instead of `mean(time)`. -/
def anomalyPipelineIndex (rmPoly : Nat → Field → Field) (ds : Dataset)
    (months : List Nat) (detrend : Bool) (order : Option Nat)
    (deseasonalize : Bool) : Dataset :=
  let a1 := if detrend then dsMapF (rmPoly (order.getD 0)) ds
    else anomaly_no_detrend_index ds
  if deseasonalize then dsDeseason months a1 else a1

/-- The anomaly-stage entries of the numeric-step trace, in source
order. -/
def anomalySteps (detrend deseasonalize : Bool) : List String :=
  [if detrend then "rm_poly" else "subtract_mean"] ++
    (if deseasonalize then ["deseasonalize"] else [])

/-- The function `spco2_decomposition(ds_terms, detrend, order,
deseasonalize)`.  The first component records the numeric work
performed before the call returns or fails, in source order (the
sensitivity computation of line 308 runs before the order check of
line 310).  The `check_xarray` decorator is subsumed by the argument
types. -/
def spco2_decomposition (rmPoly : Nat → Field → Field) (ds_terms : Dataset)
    (months : List Nat) (detrend : Bool) (order : Option Nat)
    (deseasonalize : Bool) : List String × Except DecompErr Dataset :=
  match spco2_sensitivity ds_terms with
  | .error m => ([], .error (.missingVars m))
  | .ok pco2_sensitivity =>
    if detrend && orderFalsy order then
      (["spco2_sensitivity"], .error .orderMissing)
    else
      let a := anomalyPipeline rmPoly ds_terms months detrend order deseasonalize
      ("spco2_sensitivity" :: anomalySteps detrend deseasonalize ++ ["multiply"],
        .ok (termsMulDS (dsMeanTime pco2_sensitivity) a))

/-! ## The index-regression driver `spco2_decomposition_index` -/

/-- The local function `regression_against_index(ds, index)`: the
regression slope of every non-`spco2` variable against the index. -/
def regression_against_index (ds : Dataset) (index : Field) : Terms :=
  ds.vars.filterMap (fun p =>
    if p.1 = "spco2" then none else some (p.1, linear_regression index p.2))

/-- Label-based time slice `sel(time=slice(str(y1), str(y2)))`: the
entries whose year lies between `y1` and `y2` inclusive, on the
monotonic time axis xarray requires for label slicing. -/
def selF (years : List Nat) (y1 y2 : Nat) (f : Field) : Field :=
  (years.zip f).filterMap (fun p =>
    if y1 ≤ p.1 ∧ p.1 ≤ y2 then some p.2 else none)

/-- The year slice applied to every variable of a Dataset. -/
def selDS (years : List Nat) (y1 y2 : Nat) (ds : Dataset) : Dataset :=
  dsMapF (selF years y1 y2) ds

/-- The keys of `index.groupby(time.year).groups` on a monotonic time
axis: the year labels with consecutive repetitions removed. -/
def uniqueYears : List Nat → List Nat
  | [] => []
  | [y] => [y]
  | y :: y' :: rest =>
    if y = y' then uniqueYears (y' :: rest)
    else y :: uniqueYears (y' :: rest)

/-- The year of the last time entry, `index[time.year][-1]`. -/
def yEnd (years : List Nat) : Nat := years.getLast?.getD 0

/-- Average of the per-window results across windows, as
`xr.concat(res, dim=time).mean(time)` (never reached on `[]`, where
`xr.concat` raises instead). -/
def concatMeanTime : List Terms → Terms
  | [] => []
  | r :: rs =>
    r.map (fun p => (p.1, mean ((r :: rs).filterMap (fun t => getT t p.1))))

/-- The body of the sliding-window loop at window start `y1`: the
per-window regression slopes times the per-window mean sensitivity. -/
def windowTerm (a sens : Dataset) (index : Field) (years : List Nat)
    (n y1 : Nat) : Terms :=
  termsMul
    (regression_against_index (selDS years y1 (y1 + n) a)
      (selF years y1 (y1 + n) index))
    (nanmeanDS (selDS years y1 (y1 + n) sens))

/-- The window starts the loop keeps: year groups `y1` with
`y1 + sliding_window <= y_end`. -/
def windowStarts (years : List Nat) (n : Nat) : List Nat :=
  (uniqueYears years).filter (fun y1 => decide (y1 + n ≤ yEnd years))

/-- The function `spco2_decomposition_index(ds_terms, index, detrend,
order, deseasonalize, plot, sliding_window)`.  The `plot` branch only
draws and returns nothing, so it is not modelled.  The first component
records the numeric work performed before the call returns or fails,
in source order. -/
def spco2_decomposition_index (rmPoly : Nat → Field → Field)
    (ds_terms : Dataset) (index : Field) (years months : List Nat)
    (detrend : Bool) (order : Option Nat) (deseasonalize : Bool)
    (sliding_window : Option Nat) : List String × Except DecompErr Terms :=
  match spco2_sensitivity ds_terms with
  | .error m => ([], .error (.missingVars m))
  | .ok pco2_sensitivity =>
    if detrend && orderFalsy order then
      (["spco2_sensitivity"], .error .orderMissing)
    else
      let a := anomalyPipelineIndex rmPoly ds_terms months detrend order deseasonalize
      let tr := "spco2_sensitivity" :: anomalySteps detrend deseasonalize
      match sliding_window with
      | none =>
        (tr ++ ["regression"],
          .ok (termsMul (regression_against_index a index)
            (nanmeanDS pco2_sensitivity)))
      | some n =>
        let res := (uniqueYears years).foldl (fun acc y1 =>
          if y1 + n ≤ yEnd years then
            acc ++ [windowTerm a pco2_sensitivity index years n y1]
          else acc) []
        match res with
        | [] => (tr ++ ["sliding_regression"], .error .concatEmpty)
        | r :: rs =>
          (tr ++ ["sliding_regression"], .ok (concatMeanTime (r :: rs)))

/-! ## Claims C2 and C3 -/

/-- Counterexample to C2 as stated: at this concrete valid Dataset,
`spco2_decomposition` with `detrend=True` and `order=None` does raise
the order error, but the sensitivity computation has already run on the
data before it, so the error is not raised before any numeric work. -/
theorem claim_C2_counterexample :
    spco2_decomposition (fun _ f => f) dsFull [1, 2] true none false =
      (["spco2_sensitivity"], .error .orderMissing) ∧
      (["spco2_sensitivity"] : List String) ≠ ([] : List String) :=
  ⟨rfl, by decide⟩

/-- C2 amended: for every Dataset, calling `spco2_decomposition` with
`detrend=True` and a falsy `order` raises an explicit error before the
anomaly, deseasonalization and multiplication stages, but after the
sensitivity computation: the numeric trace preceding the error is
exactly the sensitivity step (or empty when the Dataset is invalid and
the missing-variables error fires first). -/
theorem claim_C2 (rmPoly : Nat → Field → Field) (ds : Dataset)
    (months : List Nat) (order : Option Nat) (dz : Bool)
    (ho : orderFalsy order = true) :
    (∃ e, (spco2_decomposition rmPoly ds months true order dz).2 = .error e) ∧
      ((spco2_decomposition rmPoly ds months true order dz).1 = [] ∨
        (spco2_decomposition rmPoly ds months true order dz).1 =
          ["spco2_sensitivity"]) := by
  unfold spco2_decomposition
  cases hs : spco2_sensitivity ds with
  | error m => exact ⟨⟨.missingVars m, rfl⟩, .inl rfl⟩
  | ok sens =>
    simp only [ho, Bool.and_true, Bool.true_and, if_true]
    exact ⟨⟨.orderMissing, rfl⟩, .inr trivial⟩

/-- Witness for the amended C2 at a concrete valid Dataset. -/
theorem claim_C2_witness :
    (∃ e, (spco2_decomposition (fun _ f => f) dsFull [1, 2] true none true).2 =
      .error e) ∧
      ((spco2_decomposition (fun _ f => f) dsFull [1, 2] true none true).1 = [] ∨
        (spco2_decomposition (fun _ f => f) dsFull [1, 2] true none true).1 =
          ["spco2_sensitivity"]) :=
  claim_C2 (fun _ f => f) dsFull [1, 2] none true (by decide)

/-- Counterexample to C3 as stated: `dsExtra` holds the five required
variables plus an extra one, so its variable set is not exactly the
required five, yet both decomposition functions succeed on it instead
of failing. -/
theorem claim_C3_counterexample :
    (∃ out, (spco2_decomposition (fun _ f => f) dsExtra [1, 2]
      false none false).2 = .ok out) ∧
    (∃ t, (spco2_decomposition_index (fun _ f => f) dsExtra [1, 2]
      [2000, 2001] [1, 2] false none false none).2 = .ok t) :=
  ⟨⟨_, rfl⟩, ⟨_, rfl⟩⟩

/-- C3 amended: every Dataset passed to the decomposition functions must
contain at least the five required variables; when one is missing, both
calls fail before any computation (the numeric trace is empty) with the
error naming exactly the missing variables.  Variables beyond the five
are accepted. -/
theorem claim_C3 (rmPoly : Nat → Field → Field) (ds : Dataset)
    (index : Field) (years months : List Nat) (detrend : Bool)
    (order : Option Nat) (dz : Bool) (sw : Option Nat)
    (hmiss : ∃ v ∈ requiredVars, v ∉ ds.data_vars) :
    spco2_decomposition rmPoly ds months detrend order dz =
      ([], .error (.missingVars
        (requiredVars.filter (fun i => decide (i ∉ ds.data_vars))))) ∧
    spco2_decomposition_index rmPoly ds index years months detrend order dz sw =
      ([], .error (.missingVars
        (requiredVars.filter (fun i => decide (i ∉ ds.data_vars))))) := by
  have h := sens_error_of_missing ds hmiss
  constructor
  · unfold spco2_decomposition
    rw [h]
  · unfold spco2_decomposition_index
    rw [h]

/-- Witness for the amended C3 at the Dataset missing `tos`. -/
theorem claim_C3_witness :
    spco2_decomposition (fun _ f => f) dsNoTos [1, 2] true (some 1) false =
      ([], .error (.missingVars ["tos"])) ∧
    spco2_decomposition_index (fun _ f => f) dsNoTos [1, 2] [2000, 2001] [1, 2]
      true (some 1) false (some 1) =
      ([], .error (.missingVars ["tos"])) := by
  have h := claim_C3 (fun _ f => f) dsNoTos [1, 2] [2000, 2001] [1, 2]
    true (some 1) false (some 1) ⟨"tos", by decide, by decide⟩
  have hf : requiredVars.filter (fun i => decide (i ∉ dsNoTos.data_vars)) =
      ["tos"] := by decide
  rw [hf] at h
  exact h

/-! ## Claim C4 -/

/-- The anomaly as claim C4 states it: every variable of the Dataset
minus its own mean over the time axis only. -/
def dsMinusTimeMeanSpec (ds : Dataset) : Dataset :=
  ⟨ds.vars.map (fun p => (p.1, p.2.map (fun v => v - mean p.2)))⟩

theorem filterMap_eq_map_of_some {α β : Type} (f : α → Option β) (h : α → β) :
    ∀ l : List α, (∀ a ∈ l, f a = some (h a)) → l.filterMap f = l.map h := by
  intro l
  induction l with
  | nil => intro _; rfl
  | cons a as ih =>
    intro hall
    simp only [List.filterMap_cons, hall a (List.mem_cons_self a as),
      List.map_cons]
    rw [ih (fun x hx => hall x (List.mem_cons_of_mem a hx))]

theorem getT_map_of_nodup (g : Field → ℚ) :
    ∀ l : List (String × Field), (l.map Prod.fst).Nodup →
      ∀ p ∈ l, getT (l.map (fun q => (q.1, g q.2))) p.1 = some (g p.2) := by
  intro l
  induction l with
  | nil => intro _ p hp; cases hp
  | cons q rest ih =>
    intro hnd p hp
    rw [List.map_cons, List.nodup_cons] at hnd
    cases hp with
    | head =>
      unfold getT
      rw [List.map_cons, List.find?_cons_of_pos _ (by simp)]
      rfl
    | tail _ hmem =>
      have hne : q.1 ≠ p.1 := fun he =>
        hnd.1 (he ▸ List.mem_map_of_mem Prod.fst hmem)
      unfold getT
      rw [List.map_cons, List.find?_cons_of_neg _ (by simp [hne])]
      exact ih hnd.2 p hmem

theorem dsSubTerms_mean_eq (ds : Dataset) (hnd : ds.data_vars.Nodup) :
    dsSubTerms ds (dsMeanTime ds) = dsMinusTimeMeanSpec ds := by
  unfold dsSubTerms dsMeanTime dsMinusTimeMeanSpec
  congr 1
  apply filterMap_eq_map_of_some
  intro p hp
  rw [getT_map_of_nodup mean ds.vars hnd p hp]
  rfl

theorem dsSubTerms_nanmean_eq (ds : Dataset) (hnd : ds.data_vars.Nodup) :
    dsSubTerms ds (nanmeanDS ds) = dsMinusTimeMeanSpec ds := by
  unfold dsSubTerms nanmeanDS dsMinusTimeMeanSpec
  congr 1
  apply filterMap_eq_map_of_some
  intro p hp
  rw [getT_map_of_nodup nanmeanF ds.vars hnd p hp]
  rfl

/-- C4: in both `spco2_decomposition` and `spco2_decomposition_index`,
with `detrend=False` the anomaly is the input Dataset minus its mean
over the time axis only (for Datasets with distinct variable names, as
xarray enforces). -/
theorem claim_C4 (ds : Dataset) (hnd : ds.data_vars.Nodup) :
    anomaly_no_detrend ds = dsMinusTimeMeanSpec ds ∧
      anomaly_no_detrend_index ds = dsMinusTimeMeanSpec ds :=
  ⟨dsSubTerms_mean_eq ds hnd, dsSubTerms_nanmean_eq ds hnd⟩

/-- Witness for C4 at the concrete full Dataset. -/
theorem claim_C4_witness :
    anomaly_no_detrend dsFull = dsMinusTimeMeanSpec dsFull ∧
      anomaly_no_detrend_index dsFull = dsMinusTimeMeanSpec dsFull :=
  claim_C4 dsFull (by decide)

/-! ## Helper lemmas for the sliding-window loop -/

theorem foldl_if_append {α β : Type} (p : α → Prop) [DecidablePred p] (g : α → β) :
    ∀ (l : List α) (acc : List β),
      l.foldl (fun acc y => if p y then acc ++ [g y] else acc) acc =
        acc ++ (l.filter (fun y => decide (p y))).map g := by
  intro l
  induction l with
  | nil => intro acc; simp
  | cons a as ih =>
    intro acc
    by_cases hp : p a
    · simp [List.foldl_cons, List.filter_cons, hp, ih]
    · simp [List.foldl_cons, List.filter_cons, hp, ih]

theorem res_eq_windowStarts (a sens : Dataset) (index : Field)
    (years : List Nat) (n : Nat) :
    (uniqueYears years).foldl (fun acc y1 =>
      if y1 + n ≤ yEnd years then
        acc ++ [windowTerm a sens index years n y1]
      else acc) [] =
    (windowStarts years n).map (windowTerm a sens index years n) := by
  rw [foldl_if_append (fun y1 => y1 + n ≤ yEnd years)
    (windowTerm a sens index years n) (uniqueYears years) []]
  rfl

/-- The sensitivity Dataset the model returns on `dsFull`. -/
def sensFull : Dataset :=
  dsMulField
    ⟨[("tos", List.replicate 2 (0.0423 : ℚ)),
      ("sos", ([2, 4] : List ℚ).map (fun s => 1 / s)),
      ("talkos", List.zipWith (fun a b => 1 / a * b) [3, 5]
        (List.zipWith (fun a d => -a ^ 2 / ((2 * d - a) * (a - d))) [3, 5] [1, 2])),
      ("dissicos", List.zipWith (fun d b => 1 / d * b) [1, 2]
        (List.zipWith
          (fun a d => (3 * a * d - 2 * d ^ 2) / ((2 * d - a) * (a - d)))
          [3, 5] [1, 2]))]⟩
    [10, 20]

/-! ## Claims C5 and C10 -/

/-- C5: with a sliding window `n`, the result collects, for every window
start in the year groups whose window end does not pass the last year,
the per-window regression slopes of the anomaly drivers on the index
times the per-window mean sensitivity, and averages these per-window
decompositions across windows; with `sliding_window=None` the regression
runs once over the full series times the full-series mean sensitivity. -/
theorem claim_C5 (rmPoly : Nat → Field → Field) (ds : Dataset) (index : Field)
    (years months : List Nat) (detrend : Bool) (order : Option Nat) (dz : Bool)
    (n : Nat) (sens : Dataset)
    (hok : spco2_sensitivity ds = .ok sens)
    (hord : (detrend && orderFalsy order) = false) :
    (windowStarts years n ≠ [] →
      (spco2_decomposition_index rmPoly ds index years months detrend order dz
          (some n)).2 =
        .ok (concatMeanTime ((windowStarts years n).map
          (windowTerm (anomalyPipelineIndex rmPoly ds months detrend order dz)
            sens index years n)))) ∧
    (spco2_decomposition_index rmPoly ds index years months detrend order dz
        none).2 =
      .ok (termsMul
        (regression_against_index
          (anomalyPipelineIndex rmPoly ds months detrend order dz) index)
        (nanmeanDS sens)) := by
  unfold spco2_decomposition_index
  rw [hok]
  simp only [hord, Bool.false_eq_true, if_false]
  constructor
  · intro hne
    rw [res_eq_windowStarts]
    obtain ⟨r, rs, hws⟩ : ∃ r rs, (windowStarts years n).map
        (windowTerm (anomalyPipelineIndex rmPoly ds months detrend order dz)
          sens index years n) = r :: rs := by
      cases hmap : (windowStarts years n).map
          (windowTerm (anomalyPipelineIndex rmPoly ds months detrend order dz)
            sens index years n) with
      | nil => exact absurd (List.map_eq_nil_iff.mp hmap) hne
      | cons r rs => exact ⟨r, rs, rfl⟩
    rw [hws]
  · trivial

/-- Witness for C5 on the concrete two-year Dataset, with a one-year
window and with no window. -/
theorem claim_C5_witness :
    windowStarts [2000, 2001] 1 ≠ [] ∧
    (spco2_decomposition_index (fun _ f => f) dsFull [1, 2] [2000, 2001] [1, 2]
        false none false (some 1)).2 =
      .ok (concatMeanTime ((windowStarts [2000, 2001] 1).map
        (windowTerm
          (anomalyPipelineIndex (fun _ f => f) dsFull [1, 2] false none false)
          sensFull [1, 2] [2000, 2001] 1))) ∧
    (spco2_decomposition_index (fun _ f => f) dsFull [1, 2] [2000, 2001] [1, 2]
        false none false none).2 =
      .ok (termsMul
        (regression_against_index
          (anomalyPipelineIndex (fun _ f => f) dsFull [1, 2] false none false)
          [1, 2])
        (nanmeanDS sensFull)) := by
  have h := claim_C5 (fun _ f => f) dsFull [1, 2] [2000, 2001] [1, 2] false none
    false 1 sensFull (by rfl) (by decide)
  exact ⟨by decide, h.1 (by decide), h.2⟩

/-- C10: when no window start satisfies `y1 + N <= y_end`, the
per-window list is empty and the call fails on the empty concatenation
rather than returning a result or falling back to a full-series
regression. -/
theorem claim_C10 (rmPoly : Nat → Field → Field) (ds : Dataset) (index : Field)
    (years months : List Nat) (detrend : Bool) (order : Option Nat) (dz : Bool)
    (n : Nat) (sens : Dataset)
    (hok : spco2_sensitivity ds = .ok sens)
    (hord : (detrend && orderFalsy order) = false)
    (hempty : ∀ y1 ∈ uniqueYears years, ¬ (y1 + n ≤ yEnd years)) :
    (spco2_decomposition_index rmPoly ds index years months detrend order dz
        (some n)).2 = .error .concatEmpty := by
  have hws : windowStarts years n = [] := by
    unfold windowStarts
    rw [List.filter_eq_nil_iff]
    intro y1 hy1
    simpa using hempty y1 hy1
  unfold spco2_decomposition_index
  rw [hok]
  simp only [hord, Bool.false_eq_true, if_false]
  rw [res_eq_windowStarts, hws]
  rfl

/-- Witness for C10: a two-year series with a two-year window admits no
window start, and the call fails. -/
theorem claim_C10_witness :
    (spco2_decomposition_index (fun _ f => f) dsFull [1, 2] [2000, 2001] [1, 2]
        false none false (some 2)).2 = .error .concatEmpty :=
  claim_C10 (fun _ f => f) dsFull [1, 2] [2000, 2001] [1, 2] false none false 2
    sensFull (by rfl) (by decide) (by decide)

/-! ## Claim C6 -/

instance {ε α : Type _} [DecidableEq ε] [DecidableEq α] :
    DecidableEq (Except ε α) := fun x y =>
  match x, y with
  | .error a, .error b =>
    if h : a = b then .isTrue (by rw [h])
    else .isFalse (fun hc => h (Except.error.inj hc))
  | .ok a, .ok b =>
    if h : a = b then .isTrue (by rw [h])
    else .isFalse (fun hc => h (Except.ok.inj hc))
  | .error _, .ok _ => .isFalse (fun hc => Except.noConfusion hc)
  | .ok _, .error _ => .isFalse (fun hc => Except.noConfusion hc)

/-- The year of the first time entry. -/
def yStart (years : List Nat) : Nat := years.head?.getD 0

theorem yStart_mem (years : List Nat) (hne : years ≠ []) :
    yStart years ∈ years := by
  cases years with
  | nil => exact absurd rfl hne
  | cons a l => simp [yStart]

theorem mem_uniqueYears (ys : List Nat) : ∀ y, y ∈ uniqueYears ys ↔ y ∈ ys := by
  induction ys with
  | nil => intro y; simp [uniqueYears]
  | cons a rest ih =>
    intro y
    cases rest with
    | nil => simp [uniqueYears]
    | cons b rest2 =>
      show y ∈ (if a = b then uniqueYears (b :: rest2)
        else a :: uniqueYears (b :: rest2)) ↔ _
      by_cases hab : a = b
      · rw [if_pos hab, ih y, hab]
        simp only [List.mem_cons]
        tauto
      · rw [if_neg hab]
        simp only [List.mem_cons, ih y]

theorem selF_full (y1 y2 : Nat) : ∀ (ys : List Nat) (f : Field),
    f.length = ys.length → (∀ y ∈ ys, y1 ≤ y ∧ y ≤ y2) →
    selF ys y1 y2 f = f := by
  intro ys
  induction ys with
  | nil =>
    intro f hlen _
    rw [List.length_nil, List.length_eq_zero] at hlen
    rw [hlen]
    rfl
  | cons a rest ih =>
    intro f hlen hb
    cases f with
    | nil => simp at hlen
    | cons v fs =>
      unfold selF
      rw [List.zip_cons_cons, List.filterMap_cons]
      have hcond : (if y1 ≤ (a, v).1 ∧ (a, v).1 ≤ y2 then some (a, v).2 else none) =
          some v :=
        if_pos ⟨(hb a (List.mem_cons_self a rest)).1, (hb a (List.mem_cons_self a rest)).2⟩
      rw [hcond]
      simp only [List.length_cons, Nat.succ.injEq] at hlen
      have htail := ih fs hlen (fun y hy => hb y (List.mem_cons_of_mem a hy))
      unfold selF at htail
      rw [htail]

theorem map_self_of_eq {α : Type} (f : α → α) :
    ∀ l : List α, (∀ x ∈ l, f x = x) → l.map f = l := by
  intro l
  induction l with
  | nil => intro _; rfl
  | cons a as ih =>
    intro h
    rw [List.map_cons, h a (List.mem_cons_self a as),
      ih (fun x hx => h x (List.mem_cons_of_mem a hx))]

theorem selDS_full (y1 y2 : Nat) (years : List Nat) (ds : Dataset)
    (hlen : ∀ p ∈ ds.vars, p.2.length = years.length)
    (hb : ∀ y ∈ years, y1 ≤ y ∧ y ≤ y2) :
    selDS years y1 y2 ds = ds := by
  unfold selDS dsMapF
  have h : ds.vars.map (fun p => (p.1, selF years y1 y2 p.2)) = ds.vars := by
    apply map_self_of_eq
    intro p hp
    rw [selF_full y1 y2 years p.2 (hlen p hp) hb]
  rw [h]

theorem getT_self_of_nodup :
    ∀ t : Terms, (t.map Prod.fst).Nodup → ∀ p ∈ t, getT t p.1 = some p.2 := by
  intro t
  induction t with
  | nil => intro _ p hp; cases hp
  | cons q rest ih =>
    intro hnd p hp
    rw [List.map_cons, List.nodup_cons] at hnd
    cases hp with
    | head =>
      unfold getT
      rw [List.find?_cons_of_pos _ (by simp)]
      rfl
    | tail _ hmem =>
      have hne : q.1 ≠ p.1 := fun he =>
        hnd.1 (he ▸ List.mem_map_of_mem Prod.fst hmem)
      unfold getT
      rw [List.find?_cons_of_neg _ (by simp [hne])]
      exact ih hnd.2 p hmem

theorem reg_names_sublist (ds : Dataset) (index : Field) :
    List.Sublist ((regression_against_index ds index).map Prod.fst)
      (ds.vars.map Prod.fst) := by
  unfold regression_against_index
  generalize ds.vars = l
  induction l with
  | nil => simp
  | cons p rest ih =>
    rw [List.filterMap_cons, List.map_cons]
    by_cases hp : p.1 = "spco2"
    · rw [if_pos hp]
      exact ih.cons p.1
    · rw [if_neg hp]
      exact ih.cons₂ p.1

theorem termsMul_names_sublist (a b : Terms) :
    List.Sublist ((termsMul a b).map Prod.fst) (a.map Prod.fst) := by
  unfold termsMul
  induction a with
  | nil => simp
  | cons p rest ih =>
    rw [List.filterMap_cons, List.map_cons]
    cases hg : getT b p.1 with
    | none => exact ih.cons p.1
    | some y => exact ih.cons₂ p.1

theorem mean_const (c : ℚ) (l : List ℚ) (hne : l ≠ [])
    (hall : ∀ x ∈ l, x = c) : mean l = c := by
  have hrep : l = List.replicate l.length c := List.eq_replicate_of_mem hall
  unfold mean
  rw [hrep, List.sum_replicate, List.length_replicate, nsmul_eq_mul]
  have hn : (l.length : ℚ) ≠ 0 :=
    Nat.cast_ne_zero.mpr (Nat.pos_iff_ne_zero.mp (List.length_pos.mpr hne))
  exact mul_div_cancel_left₀ c hn

theorem concatMean_all_eq (t0 : Terms) (hnd : (t0.map Prod.fst).Nodup) :
    ∀ l : List Terms, l ≠ [] → (∀ t ∈ l, t = t0) → concatMeanTime l = t0 := by
  intro l hne hall
  cases l with
  | nil => exact absurd rfl hne
  | cons r rs =>
    have hr : r = t0 := hall r (List.mem_cons_self r rs)
    show r.map (fun p =>
      (p.1, mean ((r :: rs).filterMap (fun t => getT t p.1)))) = t0
    rw [hr]
    apply map_self_of_eq
    intro p hp
    have hfm : (t0 :: rs).filterMap (fun t => getT t p.1) =
        (t0 :: rs).map (fun _ => p.2) := by
      apply filterMap_eq_map_of_some
      intro t ht
      have ht0 : t = t0 := by
        cases ht with
        | head => rfl
        | tail _ hmem => exact hall t (List.mem_cons_of_mem r hmem)
      rw [ht0]
      exact getT_self_of_nodup t0 hnd p hp
    rw [hfm]
    have hm : mean ((t0 :: rs).map (fun _ => p.2)) = p.2 := by
      apply mean_const
      · simp
      · intro x hx
        rcases List.mem_map.mp hx with ⟨t, _, rfl⟩
        rfl
    rw [hm]

theorem windowStarts_full (years : List Nat) (hne : years ≠ [])
    (hbound : ∀ y ∈ years, yStart years ≤ y ∧ y ≤ yEnd years) :
    windowStarts years (yEnd years - yStart years) ≠ [] ∧
      ∀ y1 ∈ windowStarts years (yEnd years - yStart years),
        y1 = yStart years := by
  have h0mem : yStart years ∈ years := yStart_mem years hne
  have h0E : yStart years ≤ yEnd years := (hbound _ h0mem).2
  constructor
  · apply List.ne_nil_of_mem (a := yStart years)
    unfold windowStarts
    rw [List.mem_filter]
    refine ⟨(mem_uniqueYears years _).mpr h0mem, ?_⟩
    simp [Nat.add_sub_cancel' h0E]
  · intro y1 hy1
    unfold windowStarts at hy1
    rw [List.mem_filter] at hy1
    have hy1y : y1 ∈ years := (mem_uniqueYears years y1).mp hy1.1
    have hb := hbound y1 hy1y
    have hle : y1 + (yEnd years - yStart years) ≤ yEnd years := by
      simpa using hy1.2
    omega

theorem windowTerm_full (a sens : Dataset) (index : Field) (years : List Nat)
    (hne : years ≠ [])
    (hbound : ∀ y ∈ years, yStart years ≤ y ∧ y ≤ yEnd years)
    (hlenA : ∀ p ∈ a.vars, p.2.length = years.length)
    (hlenS : ∀ p ∈ sens.vars, p.2.length = years.length)
    (hlenI : index.length = years.length) :
    windowTerm a sens index years (yEnd years - yStart years) (yStart years) =
      termsMul (regression_against_index a index) (nanmeanDS sens) := by
  have h0E : yStart years ≤ yEnd years := (hbound _ (yStart_mem years hne)).2
  have hy2 : yStart years + (yEnd years - yStart years) = yEnd years :=
    Nat.add_sub_cancel' h0E
  unfold windowTerm
  rw [hy2, selF_full _ _ years index hlenI hbound,
    selDS_full _ _ years a hlenA hbound, selDS_full _ _ years sens hlenS hbound]

/-- Counterexample to C6 as stated: on this two-year series a sliding
window equal to the full length in years (two) leaves the window list
empty and the call fails, while `sliding_window=None` succeeds, so the
two calls disagree. -/
theorem claim_C6_counterexample :
    (spco2_decomposition_index (fun _ f => f) dsFull [1, 2] [2000, 2001] [1, 2]
        false none false none).2 ≠
      (spco2_decomposition_index (fun _ f => f) dsFull [1, 2] [2000, 2001] [1, 2]
        false none false (some 2)).2 := by
  decide

/-- C6 amended: `sliding_window=None` agrees with a sliding window equal
to the span in years between the first and the last label, that is the
full length in years minus one; a window of the full length itself
leaves no admissible window start and the call fails instead (see the
counterexample).  The hypotheses say that the time axis is monotonic and
that the variables share the time axis with the index, with distinct
variable names. -/
theorem claim_C6 (rmPoly : Nat → Field → Field) (ds : Dataset) (index : Field)
    (years months : List Nat) (detrend : Bool) (order : Option Nat) (dz : Bool)
    (sens : Dataset)
    (hok : spco2_sensitivity ds = .ok sens)
    (hord : (detrend && orderFalsy order) = false)
    (hne : years ≠ [])
    (hbound : ∀ y ∈ years, yStart years ≤ y ∧ y ≤ yEnd years)
    (hlenA : ∀ p ∈ (anomalyPipelineIndex rmPoly ds months detrend order dz).vars,
      p.2.length = years.length)
    (hlenS : ∀ p ∈ sens.vars, p.2.length = years.length)
    (hlenI : index.length = years.length)
    (hnd : ((anomalyPipelineIndex rmPoly ds months detrend order dz).vars.map
      Prod.fst).Nodup) :
    (spco2_decomposition_index rmPoly ds index years months detrend order dz
        (some (yEnd years - yStart years))).2 =
      (spco2_decomposition_index rmPoly ds index years months detrend order dz
        none).2 := by
  obtain ⟨hwne, hwall⟩ := windowStarts_full years hne hbound
  have hnd0 : ((termsMul
      (regression_against_index
        (anomalyPipelineIndex rmPoly ds months detrend order dz) index)
      (nanmeanDS sens)).map Prod.fst).Nodup :=
    ((termsMul_names_sublist _ _).trans
      (reg_names_sublist (anomalyPipelineIndex rmPoly ds months detrend order dz)
        index)).nodup hnd
  have htw := windowTerm_full
    (anomalyPipelineIndex rmPoly ds months detrend order dz) sens index years
    hne hbound hlenA hlenS hlenI
  have hmapall : ∀ t ∈ (windowStarts years (yEnd years - yStart years)).map
      (windowTerm (anomalyPipelineIndex rmPoly ds months detrend order dz)
        sens index years (yEnd years - yStart years)), t =
      termsMul (regression_against_index
        (anomalyPipelineIndex rmPoly ds months detrend order dz) index)
        (nanmeanDS sens) := by
    intro t ht
    rcases List.mem_map.mp ht with ⟨y1, hy1, rfl⟩
    rw [hwall y1 hy1]
    exact htw
  have hmapne : (windowStarts years (yEnd years - yStart years)).map
      (windowTerm (anomalyPipelineIndex rmPoly ds months detrend order dz)
        sens index years (yEnd years - yStart years)) ≠ [] := by
    intro hmm
    exact hwne (List.map_eq_nil_iff.mp hmm)
  have hconc := concatMean_all_eq _ hnd0 _ hmapne hmapall
  unfold spco2_decomposition_index
  rw [hok]
  simp only [hord, Bool.false_eq_true, if_false]
  rw [res_eq_windowStarts]
  obtain ⟨r, rs, hws⟩ : ∃ r rs, (windowStarts years (yEnd years - yStart years)).map
      (windowTerm (anomalyPipelineIndex rmPoly ds months detrend order dz)
        sens index years (yEnd years - yStart years)) = r :: rs := by
    cases hmap : (windowStarts years (yEnd years - yStart years)).map
        (windowTerm (anomalyPipelineIndex rmPoly ds months detrend order dz)
          sens index years (yEnd years - yStart years)) with
    | nil => exact absurd hmap hmapne
    | cons r rs => exact ⟨r, rs, rfl⟩
  rw [hws] at hconc
  rw [hws]
  show Except.ok (concatMeanTime (r :: rs)) =
    Except.ok (termsMul
      (regression_against_index
        (anomalyPipelineIndex rmPoly ds months detrend order dz) index)
      (nanmeanDS sens))
  rw [hconc]

/-- Witness for the amended C6 on the concrete two-year Dataset: the
span is one year, and the one-year window agrees with no window. -/
theorem claim_C6_witness :
    (spco2_decomposition_index (fun _ f => f) dsFull [1, 2] [2000, 2001] [1, 2]
        false none false
        (some (yEnd [2000, 2001] - yStart [2000, 2001]))).2 =
      (spco2_decomposition_index (fun _ f => f) dsFull [1, 2] [2000, 2001] [1, 2]
        false none false none).2 :=
  claim_C6 (fun _ f => f) dsFull [1, 2] [2000, 2001] [1, 2] false none false
    sensFull (by rfl) (by decide) (by decide) (by decide) (by decide)
    (by decide) (by decide) (by decide)

end Carbon
